import Mathlib

/-!
Shallow embedding of the client-side resumable chunked upload engine of
`src/services/fileService.ts` (the `createUpload` factory, the
`SmallFileUpload` one-shot path, and the `LargeFileUpload` multipart
state machine with its `runUploadLoop`).

Modelling conventions:
* Mutable fields of the `LargeFileUpload` class become a state record;
  each method is a pure function `state → state × List Output`, where
  `Output` records the externally observable effects in order: status
  callbacks (`onStatusChange`), progress callbacks (`onProgress`),
  part PUT requests (`chunkSend`), the complete POST (`completeCall`),
  the best-effort abort POST (`abortCall`), the `onComplete` callback
  (`completedFile`) and the small-path whole-file POST (`wholeSend`).
* Every network await point is decided by an event oracle (`Env`): the
  init fetch, each chunk transfer (indexed by chunk index for the run),
  and the complete fetch.  A chunk transfer can succeed with an etag,
  fail with a genuine transport error, or reject because `pause()` or
  `cancel()` was invoked while it was in flight and aborted the XHR
  (`pauseAbort` / `cancelAbort`); in the two abort cases the flag and
  the status callback of the interrupting command are applied at the
  interruption point, exactly as the synchronous JS handlers do.
* JS string truthiness (`if (!this.uploadId)`, `if (this.uploadId &&
  this.key)`) is modelled by `otruthy`: `null` and `""` are falsy.
* The fire-and-forget abort POST of `cancel()` ignores its outcome
  (`.catch(console.error)`); `cancel` therefore takes the outcome as a
  parameter that it never reads.
* The chunk loop recurses on explicit fuel; `runUploadLoop` supplies
  `totalChunks` as fuel, which always suffices since each iteration
  either stops or advances `currentChunkIndex`.
-/

/-- `CHUNK_SIZE` from fileService.ts line 12: 10 MiB. -/
def CHUNK_SIZE : Nat := 10 * 1024 * 1024

/-- `this.totalChunks = Math.ceil(file.size / CHUNK_SIZE)` (constructor, line 250). -/
def totalChunks (fileSize : Nat) : Nat := (fileSize + CHUNK_SIZE - 1) / CHUNK_SIZE

/-- Size of the slice `file.slice(i*CHUNK_SIZE, min(i*CHUNK_SIZE + CHUNK_SIZE, size))`
taken at chunk index `i` (runUploadLoop lines 345-347). -/
def chunkLen (fileSize i : Nat) : Nat :=
  min (i * CHUNK_SIZE + CHUNK_SIZE) fileSize - i * CHUNK_SIZE

/-- The argument of `onStatusChange` (line 94). -/
inductive Status where
  | pending
  | uploading
  | paused
  | complete
  | error
  | cancelled
deriving DecidableEq

/-- One element of `this.parts`: `{ partNumber, etag }`. -/
structure PartRec where
  partNumber : Nat
  etag : String
deriving DecidableEq

/-- Externally observable effects, in program order. -/
inductive Output where
  | status (st : Status) (err : Option String)
  | progress (uploadedBytes fileSize : Nat)
  | chunkSend (partNumber startB endB : Nat)
  | completeCall (parts : List PartRec)
  | completedFile
  | abortCall
  | wholeSend (fileSize : Nat)
deriving DecidableEq

/-- JS truthiness of a nullable string field: `null` and `""` are falsy. -/
def otruthy : Option String → Bool
  | none => false
  | some s => !(s == "")

/-- Mutable state of a `LargeFileUpload` instance (fields, lines 229-241).
`totalChunks` is derived from the immutable file size and kept as a function. -/
structure LargeFileUpload where
  uploadId : Option String := none
  key : Option String := none
  parts : List PartRec := []
  uploadedBytes : Nat := 0
  currentChunkIndex : Nat := 0
  isPaused : Bool := false
  isCancelled : Bool := false
  isRunning : Bool := false
deriving DecidableEq

/-- A freshly constructed `LargeFileUpload` (constructor, lines 243-251). -/
def freshSess : LargeFileUpload := {}

/-- `pause()` (lines 280-289): set flags, abort the in-flight XHR (modelled at
the interruption point in the chunk loop), notify `paused`. -/
def LargeFileUpload.pause (s : LargeFileUpload) : LargeFileUpload × List Output :=
  ({ s with isPaused := true, isRunning := false },
   [Output.status Status.paused none])

/-- `cancel()` (lines 291-311): set flags, abort the in-flight XHR, fire the
best-effort abort POST only when `this.uploadId && this.key` is truthy, notify
`cancelled`.  The abort POST's outcome is passed in but never read, modelling
`fetch(...).catch(console.error)`. -/
def LargeFileUpload.cancel (abortOutcomeOk : Bool) (s : LargeFileUpload) :
    LargeFileUpload × List Output :=
  ({ s with isCancelled := true, isRunning := false, isPaused := false },
   (if otruthy s.uploadId && otruthy s.key then [Output.abortCall] else []) ++
     [Output.status Status.cancelled none])

/-- `resetState()` (lines 313-319). -/
def LargeFileUpload.resetState (s : LargeFileUpload) : LargeFileUpload :=
  { s with uploadId := none, key := none, parts := [], uploadedBytes := 0,
           currentChunkIndex := 0 }

/-- Outcome of one chunk transfer awaited by the loop (uploadChunk, lines 401-432):
success with an etag; a genuine transport failure (`onerror`, or non-200 status);
or a rejection caused by `pause()` / `cancel()` aborting the in-flight XHR. -/
inductive ChunkEv where
  | ok (etag : String)
  | netErr
  | pauseAbort
  | cancelAbort
deriving DecidableEq

/-- Outcome of the init fetch (initMultipart, lines 383-399). -/
inductive InitEv where
  | ok (uploadId key : String)
  | err (msg : String)
deriving DecidableEq

/-- Outcome of the complete fetch (completeMultipart, lines 434-458). -/
inductive CompleteEv where
  | ok
  | err (msg : String)
deriving DecidableEq

/-- Event oracle for one invocation of `runUploadLoop`: the init outcome, the
outcome of the transfer attempted at each chunk index, and the complete outcome. -/
structure Env where
  initEv : InitEv
  chunkEv : Nat → ChunkEv
  completeEv : CompleteEv

/-- Result of the chunk loop: final state, outputs emitted by the loop, and
whether the loop exhausted all chunks (so that completion is attempted). -/
structure LoopRes where
  state : LargeFileUpload
  outs : List Output
  finished : Bool
deriving DecidableEq

/-- The `while (this.currentChunkIndex < this.totalChunks)` loop of
`runUploadLoop` (lines 332-369).  Per iteration: the `isCancelled` and
`isPaused` checks (lines 333-342), the slice bounds and part number
(lines 345-348), then the awaited transfer: on success push the part,
add the chunk size, advance the cursor and report progress (lines
351-358); on a rejection while `isPaused`/`isCancelled` just return
(line 361, the flags and status callback having been applied by the
interrupting `pause()`/`cancel()`); on a genuine failure stop with the
`error` status (lines 363-367).  `uploadChunk` rejects up front when
`!this.uploadId || !this.key` (line 403), which the catch turns into the
same `error` status. -/
def chunkLoop (fileSize : Nat) (ev : Nat → ChunkEv) :
    Nat → LargeFileUpload → LoopRes
  | 0, s => ⟨s, [], !decide (s.currentChunkIndex < totalChunks fileSize)⟩
  | fuel + 1, s =>
    if s.currentChunkIndex < totalChunks fileSize then
      if s.isCancelled then
        ⟨{ s with isRunning := false }, [], false⟩
      else if s.isPaused then
        ⟨{ s with isRunning := false }, [Output.status Status.paused none], false⟩
      else if otruthy s.uploadId && otruthy s.key then
        let startB := s.currentChunkIndex * CHUNK_SIZE
        let endB := min (startB + CHUNK_SIZE) fileSize
        let pn := s.currentChunkIndex + 1
        match ev s.currentChunkIndex with
        | ChunkEv.ok etag =>
          let s' : LargeFileUpload :=
            { s with parts := s.parts ++ [⟨pn, etag⟩],
                     uploadedBytes := s.uploadedBytes + (endB - startB),
                     currentChunkIndex := s.currentChunkIndex + 1 }
          let r := chunkLoop fileSize ev fuel s'
          ⟨r.state,
           Output.chunkSend pn startB endB ::
             Output.progress s'.uploadedBytes fileSize :: r.outs,
           r.finished⟩
        | ChunkEv.netErr =>
          ⟨{ s with isRunning := false },
           [Output.chunkSend pn startB endB,
            Output.status Status.error (some "Upload chunk failed. Click Retry.")],
           false⟩
        | ChunkEv.pauseAbort =>
          let p := LargeFileUpload.pause s
          ⟨p.1, Output.chunkSend pn startB endB :: p.2, false⟩
        | ChunkEv.cancelAbort =>
          let c := LargeFileUpload.cancel true s
          ⟨c.1, Output.chunkSend pn startB endB :: c.2, false⟩
      else
        ⟨{ s with isRunning := false },
         [Output.status Status.error (some "Upload chunk failed. Click Retry.")],
         false⟩
    else ⟨s, [], true⟩

/-- Outputs of `completeMultipart` and the surrounding catch (lines 371-380,
434-458): the complete POST always goes out with the accumulated parts; on
success `onComplete` and the `complete` status fire; on failure the outer
catch reports `error` unless paused/cancelled. -/
def completionTail (env : Env) (r : LoopRes) : List Output :=
  if r.finished then
    Output.completeCall r.state.parts ::
      (match env.completeEv with
       | CompleteEv.ok => [Output.completedFile, Output.status Status.complete none]
       | CompleteEv.err msg =>
         if !r.state.isPaused && !r.state.isCancelled then
           [Output.status Status.error (some msg)]
         else [])
  else []

/-- State after the completion phase (lines 371-380): `isRunning := false`
after a successful complete, and likewise in the outer catch when not
paused/cancelled. -/
def finalState (env : Env) (r : LoopRes) : LargeFileUpload :=
  if r.finished then
    match env.completeEv with
    | CompleteEv.ok => { r.state with isRunning := false }
    | CompleteEv.err _ =>
      if !r.state.isPaused && !r.state.isCancelled then
        { r.state with isRunning := false }
      else r.state
  else r.state

/-- The part of `runUploadLoop` after init succeeded (or was skipped):
the chunk loop followed by the completion phase. -/
def runFromLoop (fileSize : Nat) (env : Env) (s : LargeFileUpload) :
    LargeFileUpload × List Output :=
  let r := chunkLoop fileSize env.chunkEv (totalChunks fileSize) s
  (finalState env r, r.outs ++ completionTail env r)

/-- `runUploadLoop()` (lines 321-381): set `isRunning`, notify `uploading`,
run init when `!this.uploadId` (truthiness), then the chunk loop and the
completion phase; init failure hits the outer catch. -/
def runUploadLoop (fileSize : Nat) (env : Env) (s0 : LargeFileUpload) :
    LargeFileUpload × List Output :=
  let s := { s0 with isRunning := true }
  let body : LargeFileUpload × List Output :=
    if otruthy s.uploadId then runFromLoop fileSize env s
    else
      match env.initEv with
      | InitEv.ok u k =>
        runFromLoop fileSize env { s with uploadId := some u, key := some k }
      | InitEv.err msg =>
        if !s.isPaused && !s.isCancelled then
          ({ s with isRunning := false },
           [Output.status Status.error (some msg)])
        else (s, [])
  (body.1, Output.status Status.uploading none :: body.2)

/-- `start()` (lines 253-263): reset after cancel, no-op when already running,
clear the flags and enter the loop. -/
def LargeFileUpload.start (fileSize : Nat) (env : Env) (s : LargeFileUpload) :
    LargeFileUpload × List Output :=
  let s := if s.isCancelled then LargeFileUpload.resetState s else s
  if s.isRunning then (s, [])
  else runUploadLoop fileSize env { s with isPaused := false, isCancelled := false }

/-- `resume()` (lines 265-278): no-op when already running, delegate to
`start()` after cancel, otherwise clear the flags and re-enter the loop at the
current cursor. -/
def LargeFileUpload.resume (fileSize : Nat) (env : Env) (s : LargeFileUpload) :
    LargeFileUpload × List Output :=
  if !s.isPaused && s.isRunning then (s, [])
  else if s.isCancelled then LargeFileUpload.start fileSize env s
  else runUploadLoop fileSize env { s with isPaused := false, isCancelled := false }

/-- A user command on the controller, with the event oracle for the run it may
trigger. -/
inductive Cmd where
  | start (env : Env)
  | pause
  | resume (env : Env)
  | cancel (abortOutcome : Bool)

/-- Dispatch one command to the session, as the UI does through the
`UploadController` interface (lines 87-92). -/
def runCmd (fileSize : Nat) : Cmd → LargeFileUpload → LargeFileUpload × List Output
  | Cmd.start env, s => LargeFileUpload.start fileSize env s
  | Cmd.pause, s => LargeFileUpload.pause s
  | Cmd.resume env, s => LargeFileUpload.resume fileSize env s
  | Cmd.cancel b, s => LargeFileUpload.cancel b s

/-- Apply a sequence of user commands, concatenating the observable outputs. -/
def runCmds (fileSize : Nat) : List Cmd → LargeFileUpload → LargeFileUpload × List Output
  | [], s => (s, [])
  | c :: cs, s =>
    let r := runCmd fileSize c s
    let r' := runCmds fileSize cs r.1
    (r'.1, r.2 ++ r'.2)

/-- Which session class `createUpload` instantiates (lines 131-137). -/
inductive UploadPath where
  | small
  | large
deriving DecidableEq

/-- The routing decision of `createUpload` (line 132): `file.size <= CHUNK_SIZE`
takes the one-shot small-file path, otherwise the multipart path. -/
def createUpload (fileSize : Nat) : UploadPath :=
  if fileSize ≤ CHUNK_SIZE then UploadPath.small else UploadPath.large

/-- Outcome of the single XHR of the small-file path: 2xx with a valid body,
a non-2xx server response, or a network error. -/
inductive SmallEv where
  | ok
  | serverErr (msg : String)
  | netErr
deriving DecidableEq

/-- State of a `SmallFileUpload` instance (lines 140-150). -/
structure SmallFileUpload where
  isCancelled : Bool := false
deriving DecidableEq

/-- `SmallFileUpload.start()` (lines 152-203): clear the cancel flag, notify
`uploading`, send the whole file in one POST, then dispatch on the outcome. -/
def SmallFileUpload.start (fileSize : Nat) (ev : SmallEv) (s : SmallFileUpload) :
    SmallFileUpload × List Output :=
  let s' : SmallFileUpload := { s with isCancelled := false }
  match ev with
  | SmallEv.ok =>
    (s', [Output.status Status.uploading none, Output.wholeSend fileSize,
          Output.completedFile, Output.status Status.complete none])
  | SmallEv.serverErr msg =>
    (s', [Output.status Status.uploading none, Output.wholeSend fileSize,
          Output.status Status.error (some msg)])
  | SmallEv.netErr =>
    (s', [Output.status Status.uploading none, Output.wholeSend fileSize,
          Output.status Status.error (some "Network error")])

/-- The partNumbers of a committed-parts list. -/
def partNumbers (ps : List PartRec) : List Nat := ps.map PartRec.partNumber

/-- The partNumbers of the part PUTs among a list of outputs. -/
def sentParts (outs : List Output) : List Nat :=
  outs.filterMap fun o =>
    match o with
    | Output.chunkSend pn _ _ => some pn
    | _ => none

/-- The (partNumber, start, end) triples of the part PUTs among outputs. -/
def sentChunks (outs : List Output) : List (Nat × Nat × Nat) :=
  outs.filterMap fun o =>
    match o with
    | Output.chunkSend pn a b => some (pn, a, b)
    | _ => none

/-- The whole-file POSTs among a list of outputs. -/
def wholeSends (outs : List Output) : List Nat :=
  outs.filterMap fun o =>
    match o with
    | Output.wholeSend n => some n
    | _ => none

/-- The parts committed by `n` consecutive successful transfers starting at
chunk index `i`. -/
def okParts (e : Nat → String) : Nat → Nat → List PartRec
  | _, 0 => []
  | i, n + 1 => ⟨i + 1, e i⟩ :: okParts e (i + 1) n

/-- The bytes uploaded by `n` consecutive chunks starting at index `i`. -/
def sumChunkLen (fileSize : Nat) : Nat → Nat → Nat
  | _, 0 => 0
  | i, n + 1 => chunkLen fileSize i + sumChunkLen fileSize (i + 1) n

/-- The outputs of `n` consecutive successful transfers starting at chunk
index `i` with `bytes` already uploaded. -/
def okOuts (fileSize : Nat) : Nat → Nat → Nat → List Output
  | _, _, 0 => []
  | bytes, i, n + 1 =>
    Output.chunkSend (i + 1) (i * CHUNK_SIZE)
        (min (i * CHUNK_SIZE + CHUNK_SIZE) fileSize) ::
      Output.progress (bytes + chunkLen fileSize i) fileSize ::
      okOuts fileSize (bytes + chunkLen fileSize i) (i + 1) n

/-- The session state after `n` consecutive successful transfers from `s`. -/
def advState (fileSize : Nat) (e : Nat → String) (s : LargeFileUpload) (n : Nat) :
    LargeFileUpload :=
  { s with parts := s.parts ++ okParts e s.currentChunkIndex n,
           uploadedBytes := s.uploadedBytes + sumChunkLen fileSize s.currentChunkIndex n,
           currentChunkIndex := s.currentChunkIndex + n }

/-- An all-success event oracle, used for concrete executions. -/
def envAllOk : Env :=
  { initEv := InitEv.ok "u" "k",
    chunkEv := fun _ => ChunkEv.ok "e",
    completeEv := CompleteEv.ok }

/-- Event oracle whose first chunk succeeds and whose second fails with a
genuine transport error. -/
def envOkThenNetErr : Env :=
  { initEv := InitEv.ok "u" "k",
    chunkEv := fun j => if j = 0 then ChunkEv.ok "e" else ChunkEv.netErr,
    completeEv := CompleteEv.ok }

/-- Event oracle whose first chunk succeeds and whose second transfer is
aborted by a mid-flight `pause()`. -/
def envOkThenPause : Env :=
  { initEv := InitEv.ok "u" "k",
    chunkEv := fun j => if j = 0 then ChunkEv.ok "e" else ChunkEv.pauseAbort,
    completeEv := CompleteEv.ok }

/-- Event oracle in which every chunk transfer is aborted by a mid-flight
`pause()`. -/
def envPauseAll : Env :=
  { initEv := InitEv.ok "u" "k",
    chunkEv := fun _ => ChunkEv.pauseAbort,
    completeEv := CompleteEv.ok }

/-- The loop result of a fresh run whose first `m` transfers succeed: the
residual loop runs from chunk index `m` with the committed parts and bytes of
chunks `1..m`, prefixed by their outputs. -/
def afterOk (fileSize : Nat) (env : Env) (u kk : String) (e : Nat → String) (m : Nat) :
    LoopRes :=
  let r := chunkLoop fileSize env.chunkEv (totalChunks fileSize - m)
    ⟨some u, some kk, okParts e 0 m, sumChunkLen fileSize 0 m, m, false, false, true⟩
  ⟨r.state, okOuts fileSize 0 0 m ++ r.outs, r.finished⟩

/-! ### Helper lemmas about the chunk loop -/

theorem otruthy_some_true {u : String} (hu : u ≠ "") : otruthy (some u) = true := by
  simp [otruthy, hu]

theorem chunkLoop_done (fileSize : Nat) (ev : Nat → ChunkEv) (fuel : Nat)
    (s : LargeFileUpload) (h : totalChunks fileSize ≤ s.currentChunkIndex) :
    chunkLoop fileSize ev fuel s = ⟨s, [], true⟩ := by
  cases fuel with
  | zero => simp [chunkLoop, Nat.not_lt.mpr h]
  | succ fuel => simp [chunkLoop, Nat.not_lt.mpr h]

theorem advState_zero (fileSize : Nat) (e : Nat → String) (s : LargeFileUpload) :
    advState fileSize e s 0 = s := by
  cases s
  simp [advState, okParts, sumChunkLen]

theorem advState_step (fileSize : Nat) (e : Nat → String) (uid k2 : Option String)
    (ps : List PartRec) (b i : Nat) (p c r : Bool) (n : Nat) :
    advState fileSize e
      ⟨uid, k2, ps ++ [⟨i + 1, e i⟩],
       b + (min (i * CHUNK_SIZE + CHUNK_SIZE) fileSize - i * CHUNK_SIZE),
       i + 1, p, c, r⟩ n =
      advState fileSize e ⟨uid, k2, ps, b, i, p, c, r⟩ (n + 1) := by
  simp [advState, okParts, sumChunkLen, chunkLen, List.append_assoc]
  all_goals omega

theorem chunkLoop_advance (fileSize : Nat) (ev : Nat → ChunkEv) (e : Nat → String) :
    ∀ (n fuel : Nat) (s : LargeFileUpload),
      s.isPaused = false → s.isCancelled = false →
      otruthy s.uploadId = true → otruthy s.key = true →
      s.currentChunkIndex + n ≤ totalChunks fileSize →
      n ≤ fuel →
      (∀ j, s.currentChunkIndex ≤ j → j < s.currentChunkIndex + n →
        ev j = ChunkEv.ok (e j)) →
      chunkLoop fileSize ev fuel s =
        ⟨(chunkLoop fileSize ev (fuel - n) (advState fileSize e s n)).state,
         okOuts fileSize s.uploadedBytes s.currentChunkIndex n ++
           (chunkLoop fileSize ev (fuel - n) (advState fileSize e s n)).outs,
         (chunkLoop fileSize ev (fuel - n) (advState fileSize e s n)).finished⟩ := by
  intro n
  induction n with
  | zero =>
    intro fuel s hp hc hu hk hbound hfuel hok
    simp [advState_zero, okOuts]
  | succ n ih =>
    intro fuel s hp hc hu hk hbound hfuel hok
    obtain ⟨uid, k2, ps, b, i, p, c, r⟩ := s
    simp only at hp hc hu hk hbound hok
    subst hp hc
    cases fuel with
    | zero => omega
    | succ fuel =>
      have hlt : i < totalChunks fileSize := by omega
      have hev : ev i = ChunkEv.ok (e i) := hok _ (Nat.le_refl _) (by omega)
      have hstep := ih fuel
        ⟨uid, k2, ps ++ [⟨i + 1, e i⟩],
         b + (min (i * CHUNK_SIZE + CHUNK_SIZE) fileSize - i * CHUNK_SIZE),
         i + 1, false, false, r⟩
        rfl rfl hu hk (by simp; omega) (by omega)
        (by intro j h1 h2; simp at h1 h2; exact hok j (by omega) (by omega))
      rw [chunkLoop]
      simp only [hlt, if_true, hu, hk, Bool.and_self, ite_true, hev]
      rw [hstep, advState_step]
      simp [okOuts, chunkLen, Nat.succ_sub_succ]

theorem okParts_partNumbers (e : Nat → String) :
    ∀ n i, partNumbers (okParts e i n) = List.range' (i + 1) n := by
  intro n
  induction n with
  | zero => intro i; rfl
  | succ n ih =>
    intro i
    simp only [okParts, partNumbers, List.map_cons, List.range'_succ]
    simp only [partNumbers] at ih
    rw [ih]

theorem sentParts_append (l1 l2 : List Output) :
    sentParts (l1 ++ l2) = sentParts l1 ++ sentParts l2 := by
  simp [sentParts]

theorem sentParts_okOuts (fileSize : Nat) :
    ∀ n b i, sentParts (okOuts fileSize b i n) = List.range' (i + 1) n := by
  intro n
  induction n with
  | zero => intro b i; rfl
  | succ n ih =>
    intro b i
    simp only [okOuts, sentParts, List.filterMap_cons, List.range'_succ]
    simp only [sentParts] at ih
    rw [ih]

theorem sentChunks_okOuts (fileSize : Nat) :
    ∀ n b i, sentChunks (okOuts fileSize b i n) =
      (List.range' i n).map
        (fun j => (j + 1, j * CHUNK_SIZE, min (j * CHUNK_SIZE + CHUNK_SIZE) fileSize)) := by
  intro n
  induction n with
  | zero => intro b i; rfl
  | succ n ih =>
    intro b i
    simp only [okOuts, sentChunks, List.filterMap_cons, List.range'_succ, List.map_cons]
    simp only [sentChunks] at ih
    rw [ih]

theorem sentParts_completionTail (env : Env) (r : LoopRes) :
    sentParts (completionTail env r) = [] := by
  simp only [completionTail]
  split
  · cases env.completeEv with
    | ok => rfl
    | err msg =>
      by_cases h : (!r.state.isPaused && !r.state.isCancelled) = true <;>
        simp [h, sentParts]
  · rfl

theorem sentParts_chunkLoop (fileSize : Nat) (ev : Nat → ChunkEv) :
    ∀ fuel s, ∃ n, sentParts (chunkLoop fileSize ev fuel s).outs =
      List.range' (s.currentChunkIndex + 1) n := by
  intro fuel
  induction fuel with
  | zero => intro s; exact ⟨0, rfl⟩
  | succ fuel ih =>
    intro s
    rw [chunkLoop]
    by_cases hlt : s.currentChunkIndex < totalChunks fileSize
    · simp only [hlt, if_true]
      cases hcan : s.isCancelled with
      | true => exact ⟨0, rfl⟩
      | false =>
        cases hpau : s.isPaused with
        | true => exact ⟨0, rfl⟩
        | false =>
          cases hids : (otruthy s.uploadId && otruthy s.key) with
          | false => simp only [Bool.false_eq_true, if_false]; exact ⟨0, rfl⟩
          | true =>
            simp only [if_true]
            cases hev : ev s.currentChunkIndex with
            | ok etag =>
              obtain ⟨n, hn⟩ := ih
                ⟨s.uploadId, s.key, s.parts ++ [⟨s.currentChunkIndex + 1, etag⟩],
                 s.uploadedBytes +
                   (min (s.currentChunkIndex * CHUNK_SIZE + CHUNK_SIZE) fileSize -
                     s.currentChunkIndex * CHUNK_SIZE),
                 s.currentChunkIndex + 1, false, false, s.isRunning⟩
              refine ⟨n + 1, ?_⟩
              simp only [sentParts, List.filterMap_cons] at hn ⊢
              simp only [List.range'_succ]
              simpa using hn
            | netErr => exact ⟨1, rfl⟩
            | pauseAbort => exact ⟨1, rfl⟩
            | cancelAbort =>
              refine ⟨1, ?_⟩
              simp [LargeFileUpload.cancel, hids, sentParts, List.filterMap_cons,
                List.filterMap_append, List.range'_succ]
    · simp only [hlt, if_false]
      exact ⟨0, rfl⟩

theorem sentParts_chunkLoop_pos (fileSize : Nat) (ev : Nat → ChunkEv) (fuel : Nat)
    (s : LargeFileUpload) (hp : s.isPaused = false) (hc : s.isCancelled = false)
    (hu : otruthy s.uploadId = true) (hk : otruthy s.key = true)
    (hlt : s.currentChunkIndex < totalChunks fileSize) :
    ∃ n, sentParts (chunkLoop fileSize ev (fuel + 1) s).outs =
      List.range' (s.currentChunkIndex + 1) (n + 1) := by
  rw [chunkLoop]
  simp only [hlt, if_true, hp, hc, hu, hk, Bool.and_self, ite_true,
    Bool.false_eq_true, if_false]
  cases hev : ev s.currentChunkIndex with
  | ok etag =>
    obtain ⟨n, hn⟩ := sentParts_chunkLoop fileSize ev fuel
      ⟨s.uploadId, s.key, s.parts ++ [⟨s.currentChunkIndex + 1, etag⟩],
       s.uploadedBytes + (min (s.currentChunkIndex * CHUNK_SIZE + CHUNK_SIZE) fileSize -
         s.currentChunkIndex * CHUNK_SIZE),
       s.currentChunkIndex + 1, false, false, s.isRunning⟩
    refine ⟨n, ?_⟩
    simp only [sentParts, List.filterMap_cons] at hn ⊢
    simp only [List.range'_succ]
    simpa using hn
  | netErr => exact ⟨0, rfl⟩
  | pauseAbort => exact ⟨0, rfl⟩
  | cancelAbort =>
    refine ⟨0, ?_⟩
    simp [LargeFileUpload.cancel, hu, hk, sentParts, List.filterMap_cons,
      List.filterMap_append, List.range'_succ]


theorem sentParts_cons_status (st : Status) (msg : Option String) (l : List Output) :
    sentParts (Output.status st msg :: l) = sentParts l := rfl

theorem sentParts_runUploadLoop (fileSize : Nat) (env : Env) (s : LargeFileUpload)
    (hu : otruthy s.uploadId = true) :
    sentParts (runUploadLoop fileSize env s).2 =
      sentParts (chunkLoop fileSize env.chunkEv (totalChunks fileSize)
        { s with isRunning := true }).outs := by
  simp only [runUploadLoop, runFromLoop]
  have hu' : otruthy ({ s with isRunning := true } : LargeFileUpload).uploadId = true := hu
  rw [if_pos hu']
  rw [sentParts_cons_status, sentParts_append, sentParts_completionTail,
    List.append_nil]

theorem chunkLoop_parts_inv (fileSize : Nat) (ev : Nat → ChunkEv) :
    ∀ fuel s, partNumbers s.parts = List.range' 1 s.currentChunkIndex →
      partNumbers (chunkLoop fileSize ev fuel s).state.parts =
        List.range' 1 (chunkLoop fileSize ev fuel s).state.currentChunkIndex := by
  intro fuel
  induction fuel with
  | zero => intro s h; exact h
  | succ fuel ih =>
    intro s h
    rw [chunkLoop]
    by_cases hlt : s.currentChunkIndex < totalChunks fileSize
    · simp only [hlt, if_true]
      cases hcan : s.isCancelled with
      | true => exact h
      | false =>
        cases hpau : s.isPaused with
        | true => exact h
        | false =>
          cases hids : (otruthy s.uploadId && otruthy s.key) with
          | false => simp only [Bool.false_eq_true, if_false]; exact h
          | true =>
            simp only [if_true]
            cases hev : ev s.currentChunkIndex with
            | ok etag =>
              apply ih
              simp only [partNumbers, List.map_append, List.map_cons, List.map_nil] at h ⊢
              rw [List.range'_concat, h]
              simp [Nat.add_comm]
            | netErr => exact h
            | pauseAbort => exact h
            | cancelAbort => exact h
    · simp only [hlt, if_false]
      exact h

theorem chunkLoop_no_error (fileSize : Nat) (ev : Nat → ChunkEv)
    (hnet : ∀ i, ev i ≠ ChunkEv.netErr) :
    ∀ fuel s, otruthy s.uploadId = true → otruthy s.key = true →
      ∀ msg, Output.status Status.error msg ∉ (chunkLoop fileSize ev fuel s).outs := by
  intro fuel
  induction fuel with
  | zero => intro s hu hk msg; simp [chunkLoop]
  | succ fuel ih =>
    intro s hu hk msg
    rw [chunkLoop]
    by_cases hlt : s.currentChunkIndex < totalChunks fileSize
    · simp only [hlt, if_true]
      cases hcan : s.isCancelled with
      | true => simp
      | false =>
        cases hpau : s.isPaused with
        | true => simp
        | false =>
          simp only [hu, hk, Bool.and_self, ite_true, Bool.false_eq_true, if_false]
          cases hev : ev s.currentChunkIndex with
          | ok etag =>
            have hrec := ih
              ⟨s.uploadId, s.key, s.parts ++ [⟨s.currentChunkIndex + 1, etag⟩],
               s.uploadedBytes + (min (s.currentChunkIndex * CHUNK_SIZE + CHUNK_SIZE) fileSize -
                 s.currentChunkIndex * CHUNK_SIZE),
               s.currentChunkIndex + 1, false, false, s.isRunning⟩ hu hk msg
            simp only [List.mem_cons, not_or]
            exact ⟨by simp, by simp, hrec⟩
          | netErr => exact absurd hev (hnet _)
          | pauseAbort => simp [LargeFileUpload.pause]
          | cancelAbort =>
            simp only [LargeFileUpload.cancel, List.mem_cons, List.mem_append, not_or]
            refine ⟨by simp, ?_, by simp⟩
            split <;> simp
    · simp [hlt]

theorem runUploadLoop_no_send (fileSize : Nat) (env : Env) (s : LargeFileUpload)
    (h : totalChunks fileSize ≤ s.currentChunkIndex) :
    sentParts (runUploadLoop fileSize env s).2 = [] ∧
    (runUploadLoop fileSize env s).1.currentChunkIndex = s.currentChunkIndex ∧
    (runUploadLoop fileSize env s).1.isCancelled = s.isCancelled := by
  simp only [runUploadLoop, runFromLoop]
  by_cases hu : otruthy s.uploadId = true
  · have hu' : otruthy ({ s with isRunning := true } : LargeFileUpload).uploadId = true := hu
    rw [if_pos hu',
      chunkLoop_done fileSize env.chunkEv (totalChunks fileSize) { s with isRunning := true } h]
    refine ⟨?_, ?_⟩
    · rw [sentParts_cons_status, sentParts_append, sentParts_completionTail, List.append_nil]
      rfl
    · simp only [finalState]
      cases env.completeEv with
      | ok => simp
      | err msg =>
        by_cases hf : (!s.isPaused && !s.isCancelled) = true <;> simp [hf]
  · have hu' : ¬ otruthy ({ s with isRunning := true } : LargeFileUpload).uploadId = true := hu
    rw [if_neg hu']
    cases env.initEv with
    | ok u k =>
      dsimp only
      rw [chunkLoop_done fileSize env.chunkEv (totalChunks fileSize)
        { s with uploadId := some u, key := some k, isRunning := true } h]
      refine ⟨?_, ?_⟩
      · rw [sentParts_cons_status, sentParts_append, sentParts_completionTail, List.append_nil]
        rfl
      · simp only [finalState]
        cases env.completeEv with
        | ok => simp
        | err msg =>
          by_cases hf : (!s.isPaused && !s.isCancelled) = true <;> simp [hf]
    | err msg =>
      dsimp only
      split <;> simp [sentParts]

theorem start_fresh_init (fileSize : Nat) (env : Env) (u kk : String)
    (hinit : env.initEv = InitEv.ok u kk) :
    LargeFileUpload.start fileSize env freshSess =
      ((runFromLoop fileSize env ⟨some u, some kk, [], 0, 0, false, false, true⟩).1,
       Output.status Status.uploading none ::
         (runFromLoop fileSize env ⟨some u, some kk, [], 0, 0, false, false, true⟩).2) := by
  simp only [LargeFileUpload.start, runUploadLoop, freshSess]
  simp [otruthy, hinit]

theorem start_fresh_advance (fileSize m : Nat) (u kk : String) (e : Nat → String) (env : Env)
    (hinit : env.initEv = InitEv.ok u kk) (hu : u ≠ "") (hkk : kk ≠ "")
    (hok : ∀ j, j < m → env.chunkEv j = ChunkEv.ok (e j))
    (hm : m ≤ totalChunks fileSize) :
    LargeFileUpload.start fileSize env freshSess =
      (finalState env (afterOk fileSize env u kk e m),
       Output.status Status.uploading none ::
         ((afterOk fileSize env u kk e m).outs ++
           completionTail env (afterOk fileSize env u kk e m))) := by
  have hadv := chunkLoop_advance fileSize env.chunkEv e m (totalChunks fileSize)
    ⟨some u, some kk, [], 0, 0, false, false, true⟩ rfl rfl
    (otruthy_some_true hu) (otruthy_some_true hkk)
    (by simpa using hm) hm
    (by intro j h1 h2; simp at h2; exact hok j h2)
  have hadv' : advState fileSize e ⟨some u, some kk, [], 0, 0, false, false, true⟩ m =
      ⟨some u, some kk, okParts e 0 m, sumChunkLen fileSize 0 m, m, false, false, true⟩ := by
    simp [advState]
  rw [hadv'] at hadv
  rw [start_fresh_init fileSize env u kk hinit]
  simp only [runFromLoop, afterOk]
  rw [hadv]

theorem afterOk_netErr (fileSize m : Nat) (env : Env) (u kk : String) (e : Nat → String)
    (hu : u ≠ "") (hkk : kk ≠ "")
    (hstop : env.chunkEv m = ChunkEv.netErr)
    (hm : m < totalChunks fileSize) :
    afterOk fileSize env u kk e m =
      ⟨⟨some u, some kk, okParts e 0 m, sumChunkLen fileSize 0 m, m, false, false, false⟩,
       okOuts fileSize 0 0 m ++
         [Output.chunkSend (m + 1) (m * CHUNK_SIZE)
            (min (m * CHUNK_SIZE + CHUNK_SIZE) fileSize),
          Output.status Status.error (some "Upload chunk failed. Click Retry.")],
       false⟩ := by
  obtain ⟨t, ht⟩ : ∃ t, totalChunks fileSize - m = t + 1 :=
    ⟨totalChunks fileSize - m - 1, by omega⟩
  simp only [afterOk]
  rw [ht, chunkLoop]
  simp [hm, otruthy_some_true hu, otruthy_some_true hkk, hstop]

theorem afterOk_pauseAbort (fileSize m : Nat) (env : Env) (u kk : String) (e : Nat → String)
    (hu : u ≠ "") (hkk : kk ≠ "")
    (hstop : env.chunkEv m = ChunkEv.pauseAbort)
    (hm : m < totalChunks fileSize) :
    afterOk fileSize env u kk e m =
      ⟨⟨some u, some kk, okParts e 0 m, sumChunkLen fileSize 0 m, m, true, false, false⟩,
       okOuts fileSize 0 0 m ++
         [Output.chunkSend (m + 1) (m * CHUNK_SIZE)
            (min (m * CHUNK_SIZE + CHUNK_SIZE) fileSize),
          Output.status Status.paused none],
       false⟩ := by
  obtain ⟨t, ht⟩ : ∃ t, totalChunks fileSize - m = t + 1 :=
    ⟨totalChunks fileSize - m - 1, by omega⟩
  simp only [afterOk]
  rw [ht, chunkLoop]
  simp [hm, otruthy_some_true hu, otruthy_some_true hkk, hstop, LargeFileUpload.pause]

theorem chunkLen_sum (fileSize : Nat) :
    ∀ n, ((List.range n).map (chunkLen fileSize)).sum = min (n * CHUNK_SIZE) fileSize := by
  intro n
  induction n with
  | zero => simp
  | succ n ih =>
    rw [List.range_succ, List.map_append, List.sum_append]
    rw [ih]
    simp only [List.map_cons, List.map_nil, List.sum_cons, List.sum_nil, chunkLen]
    simp only [CHUNK_SIZE]
    omega

theorem fileSize_le_totalChunks_mul (fileSize : Nat) :
    fileSize ≤ totalChunks fileSize * CHUNK_SIZE := by
  have hdm := Nat.div_add_mod (fileSize + CHUNK_SIZE - 1) CHUNK_SIZE
  have hmod : (fileSize + CHUNK_SIZE - 1) % CHUNK_SIZE < CHUNK_SIZE :=
    Nat.mod_lt _ (by norm_num [CHUNK_SIZE])
  simp only [totalChunks, CHUNK_SIZE] at *
  omega

theorem pred_totalChunks_mul_lt (fileSize : Nat) (h : 0 < fileSize) :
    (totalChunks fileSize - 1) * CHUNK_SIZE < fileSize := by
  have hdm := Nat.div_add_mod (fileSize + CHUNK_SIZE - 1) CHUNK_SIZE
  have hmod : (fileSize + CHUNK_SIZE - 1) % CHUNK_SIZE < CHUNK_SIZE :=
    Nat.mod_lt _ (by norm_num [CHUNK_SIZE])
  simp only [totalChunks, CHUNK_SIZE] at *
  omega

theorem totalChunks_pos (fileSize : Nat) (h : 0 < fileSize) :
    0 < totalChunks fileSize := by
  have hdm := Nat.div_add_mod (fileSize + CHUNK_SIZE - 1) CHUNK_SIZE
  have hmod : (fileSize + CHUNK_SIZE - 1) % CHUNK_SIZE < CHUNK_SIZE :=
    Nat.mod_lt _ (by norm_num [CHUNK_SIZE])
  simp only [totalChunks, CHUNK_SIZE] at *
  omega

theorem sentChunks_cons_status (st : Status) (msg : Option String) (l : List Output) :
    sentChunks (Output.status st msg :: l) = sentChunks l := rfl

theorem sentChunks_append (l1 l2 : List Output) :
    sentChunks (l1 ++ l2) = sentChunks l1 ++ sentChunks l2 := by
  simp [sentChunks]

theorem sentChunks_completionTail (env : Env) (r : LoopRes) :
    sentChunks (completionTail env r) = [] := by
  simp only [completionTail]
  split
  · cases env.completeEv with
    | ok => rfl
    | err msg =>
      by_cases h : (!r.state.isPaused && !r.state.isCancelled) = true <;>
        simp [h, sentChunks]
  · rfl

theorem completionTail_no_error (env : Env) (r : LoopRes)
    (hcomp : ∀ msg, env.completeEv ≠ CompleteEv.err msg) (msg : Option String) :
    Output.status Status.error msg ∉ completionTail env r := by
  cases hce : env.completeEv with
  | ok => simp only [completionTail, hce]; split <;> simp
  | err m2 => exact absurd hce (hcomp m2)

theorem finalState_parts (env : Env) (r : LoopRes) :
    (finalState env r).parts = r.state.parts ∧
    (finalState env r).currentChunkIndex = r.state.currentChunkIndex := by
  simp only [finalState]
  split
  · cases env.completeEv with
    | ok => simp
    | err msg =>
      dsimp only
      split <;> simp
  · simp

theorem runUploadLoop_parts_inv (fileSize : Nat) (env : Env) (s : LargeFileUpload)
    (h : partNumbers s.parts = List.range' 1 s.currentChunkIndex) :
    partNumbers (runUploadLoop fileSize env s).1.parts =
      List.range' 1 (runUploadLoop fileSize env s).1.currentChunkIndex := by
  simp only [runUploadLoop, runFromLoop]
  by_cases hu : otruthy s.uploadId = true
  · have hu' : otruthy ({ s with isRunning := true } : LargeFileUpload).uploadId = true := hu
    rw [if_pos hu']
    obtain ⟨hp, hi⟩ := finalState_parts env
      (chunkLoop fileSize env.chunkEv (totalChunks fileSize) { s with isRunning := true })
    rw [hp, hi]
    exact chunkLoop_parts_inv fileSize env.chunkEv (totalChunks fileSize)
      { s with isRunning := true } h
  · have hu' : ¬ otruthy ({ s with isRunning := true } : LargeFileUpload).uploadId = true := hu
    rw [if_neg hu']
    cases env.initEv with
    | ok u k =>
      dsimp only
      obtain ⟨hp, hi⟩ := finalState_parts env
        (chunkLoop fileSize env.chunkEv (totalChunks fileSize)
          { s with uploadId := some u, key := some k, isRunning := true })
      rw [hp, hi]
      exact chunkLoop_parts_inv fileSize env.chunkEv (totalChunks fileSize)
        { s with uploadId := some u, key := some k, isRunning := true } h
    | err msg =>
      dsimp only
      split <;> exact h

/-! ### Claim theorems -/

/-- C8: `createUpload` selects the one-shot small-file path exactly when
`fileSize ≤ CHUNK_SIZE` (10 MiB) and the multipart chunked path otherwise; a
file whose size equals the chunk size exactly is routed to the small-file
path, whose `start` performs a single whole-file upload call. -/
theorem createUpload_boundary_small :
    (∀ fileSize, createUpload fileSize = UploadPath.small ↔ fileSize ≤ CHUNK_SIZE) ∧
    createUpload CHUNK_SIZE = UploadPath.small ∧
    CHUNK_SIZE = 10 * 1024 * 1024 ∧
    (∀ fileSize ev s, wholeSends (SmallFileUpload.start fileSize ev s).2 = [fileSize]) := by
  refine ⟨?_, ?_, rfl, ?_⟩
  · intro fileSize
    simp only [createUpload]
    split <;> simp_all
  · simp [createUpload]
  · intro fileSize ev s
    cases ev <;> rfl

/-- C9: a zero-byte file satisfies `0 ≤ CHUNK_SIZE`, so `createUpload` routes
it to the small-file whole-upload path; the multipart path and its
`totalChunks = ceil(0 / CHUNK_SIZE) = 0` computation are never exercised for
it. -/
theorem createUpload_zero_small :
    createUpload 0 = UploadPath.small ∧ totalChunks 0 = 0 := by
  constructor
  · rfl
  · decide

/-- C10: `cancel()` issues the best-effort abort POST only when both
`uploadId` and `key` have been assigned (JS-truthy); a cancel before init has
succeeded performs no abort call at all; in every case the session transitions
to Cancelled with `cancelled` as the final notification, and the abort POST's
outcome (a parameter the model never reads) cannot influence the result. -/
theorem cancel_abort_guard (s : LargeFileUpload) (o1 o2 : Bool) :
    LargeFileUpload.cancel o1 s = LargeFileUpload.cancel o2 s ∧
    (s.uploadId = none ∨ s.key = none →
      Output.abortCall ∉ (LargeFileUpload.cancel o1 s).2) ∧
    (Output.abortCall ∈ (LargeFileUpload.cancel o1 s).2 →
      s.uploadId ≠ none ∧ s.key ≠ none) ∧
    (LargeFileUpload.cancel o1 s).1.isCancelled = true ∧
    (LargeFileUpload.cancel o1 s).2.getLast? =
      some (Output.status Status.cancelled none) := by
  refine ⟨rfl, ?_, ?_, rfl, ?_⟩
  · intro h
    rcases h with h | h <;> simp [LargeFileUpload.cancel, h, otruthy]
  · intro hmem
    by_cases hc : (otruthy s.uploadId && otruthy s.key) = true
    · have h1 : otruthy s.uploadId = true := by
        rcases Bool.and_eq_true _ _ |>.mp hc with ⟨h1, _⟩; exact h1
      have h2 : otruthy s.key = true := by
        rcases Bool.and_eq_true _ _ |>.mp hc with ⟨_, h2⟩; exact h2
      constructor
      · intro hnone; rw [hnone] at h1; exact Bool.noConfusion h1
      · intro hnone; rw [hnone] at h2; exact Bool.noConfusion h2
    · simp only [LargeFileUpload.cancel] at hmem
      rw [if_neg hc] at hmem
      simp at hmem
  · simp only [LargeFileUpload.cancel]
    exact List.getLast?_concat _

theorem cancel_abort_guard_wit :
    Output.abortCall ∉ (LargeFileUpload.cancel true freshSess).2 :=
  (cancel_abort_guard freshSess true false).2.1 (Or.inl rfl)

/-- C6: after `cancel()`, calling `start()` yields — state and observable
outputs alike, for every event oracle — exactly the behavior of `start()` on a
brand-new session for the same file: the reset clears `uploadId`, `key`,
`committedParts` and `uploadedBytes` and restarts chunking at index 0, with
fresh identifiers obtained from init. -/
theorem cancel_start_equals_fresh (fileSize : Nat) (env : Env)
    (s : LargeFileUpload) (b : Bool) :
    LargeFileUpload.start fileSize env (LargeFileUpload.cancel b s).1 =
      LargeFileUpload.start fileSize env freshSess := rfl

/-- C1: the committed parts always form the gapless, duplicate-free,
strictly increasing sequence `[1..currentChunkIndex]` of partNumbers: the
property is preserved by the chunk loop from any state satisfying it (for any
fuel and events, hence at every point during a run) and by a whole
`runUploadLoop` invocation, whose resulting partNumbers are duplicate-free;
after N successful uploads the cursor is N, so the partNumbers are exactly
`[1..N]`, and no partNumber is appended twice within one run. -/
theorem committedParts_gapless (fileSize : Nat) (env : Env) (ev : Nat → ChunkEv)
    (fuel : Nat) (s : LargeFileUpload)
    (h : partNumbers s.parts = List.range' 1 s.currentChunkIndex) :
    (partNumbers (chunkLoop fileSize ev fuel s).state.parts =
      List.range' 1 (chunkLoop fileSize ev fuel s).state.currentChunkIndex) ∧
    (partNumbers (runUploadLoop fileSize env s).1.parts =
      List.range' 1 (runUploadLoop fileSize env s).1.currentChunkIndex) ∧
    (partNumbers (runUploadLoop fileSize env s).1.parts).Nodup := by
  have h2 := runUploadLoop_parts_inv fileSize env s h
  refine ⟨chunkLoop_parts_inv fileSize ev fuel s h, h2, ?_⟩
  rw [h2]
  exact List.nodup_range' _ _

theorem committedParts_gapless_wit :
    partNumbers freshSess.parts = List.range' 1 freshSess.currentChunkIndex ∧
    partNumbers (runUploadLoop (CHUNK_SIZE + 1) envAllOk freshSess).1.parts =
      List.range' 1 (runUploadLoop (CHUNK_SIZE + 1) envAllOk freshSess).1.currentChunkIndex :=
  ⟨rfl,
   (committedParts_gapless (CHUNK_SIZE + 1) envAllOk envAllOk.chunkEv 2 freshSess rfl).2.1⟩

/-- C7: a transport rejection caused by an abort that `pause()` or `cancel()`
triggered is never reported as the Failed (`error`) state: in any run whose
chunk events contain no genuine transport failure (only successes and
pause/cancel aborts), whose identifiers are available (already truthy, or
obtained from a successful init with truthy values), and whose completion does
not fail, no `error` status is ever emitted; the model is a total function, so
the abort is also never thrown to the caller. -/
theorem abort_never_reported_error (fileSize : Nat) (env : Env) (s : LargeFileUpload)
    (hids : (otruthy s.uploadId = true ∧ otruthy s.key = true) ∨
      (otruthy s.uploadId = false ∧
        ∃ u kk, env.initEv = InitEv.ok u kk ∧ u ≠ "" ∧ kk ≠ ""))
    (hnet : ∀ i, env.chunkEv i ≠ ChunkEv.netErr)
    (hcomp : ∀ msg, env.completeEv ≠ CompleteEv.err msg) :
    ∀ msg, Output.status Status.error msg ∉ (runUploadLoop fileSize env s).2 := by
  intro msg
  simp only [runUploadLoop, runFromLoop]
  rcases hids with ⟨hu, hk⟩ | ⟨hu, u, kk, hinit, hu', hkk'⟩
  · have hu2 : otruthy ({ s with isRunning := true } : LargeFileUpload).uploadId = true := hu
    rw [if_pos hu2]
    simp only [List.mem_cons, List.mem_append, not_or]
    exact ⟨by simp,
      chunkLoop_no_error fileSize env.chunkEv hnet (totalChunks fileSize)
        { s with isRunning := true } hu hk msg,
      completionTail_no_error env _ hcomp msg⟩
  · have hu2 : ¬ otruthy ({ s with isRunning := true } : LargeFileUpload).uploadId = true := by
      simp [hu]
    rw [if_neg hu2, hinit]
    dsimp only
    simp only [List.mem_cons, List.mem_append, not_or]
    exact ⟨by simp,
      chunkLoop_no_error fileSize env.chunkEv hnet (totalChunks fileSize)
        { s with uploadId := some u, key := some kk, isRunning := true }
        (otruthy_some_true hu') (otruthy_some_true hkk') msg,
      completionTail_no_error env _ hcomp msg⟩

theorem abort_never_reported_error_wit :
    Output.status Status.error (some "boom") ∉
      (runUploadLoop (CHUNK_SIZE + 1) envPauseAll freshSess).2 :=
  abort_never_reported_error (CHUNK_SIZE + 1) envPauseAll freshSess
    (Or.inr ⟨rfl, "u", "k", rfl, by decide, by decide⟩)
    (fun _ h => ChunkEv.noConfusion h)
    (fun _ h => CompleteEv.noConfusion h)
    (some "boom")

/-- C2: on the chunked path (`CHUNK_SIZE < fileSize`) the session partitions
the file into exactly `ceil(fileSize/CHUNK_SIZE)` chunks: a full-success run
sends precisely one PUT per chunk index i, with partNumber i+1 and byte range
`[i*CHUNK_SIZE, min(i*CHUNK_SIZE + CHUNK_SIZE, fileSize))`; every chunk has
size `CHUNK_SIZE` except the last, whose size is
`fileSize - CHUNK_SIZE*(totalChunks-1)`, and the chunk sizes sum to
`fileSize`. -/
theorem chunk_partition_correct (fileSize : Nat) (env : Env) (u kk : String)
    (e : Nat → String)
    (hS : CHUNK_SIZE < fileSize)
    (hinit : env.initEv = InitEv.ok u kk) (hu : u ≠ "") (hkk : kk ≠ "")
    (hok : ∀ j, env.chunkEv j = ChunkEv.ok (e j)) :
    totalChunks fileSize = (fileSize + CHUNK_SIZE - 1) / CHUNK_SIZE ∧
    sentChunks (LargeFileUpload.start fileSize env freshSess).2 =
      (List.range (totalChunks fileSize)).map
        (fun i => (i + 1, i * CHUNK_SIZE, min (i * CHUNK_SIZE + CHUNK_SIZE) fileSize)) ∧
    (∀ i, i + 1 < totalChunks fileSize → chunkLen fileSize i = CHUNK_SIZE) ∧
    chunkLen fileSize (totalChunks fileSize - 1) =
      fileSize - CHUNK_SIZE * (totalChunks fileSize - 1) ∧
    ((List.range (totalChunks fileSize)).map (chunkLen fileSize)).sum = fileSize := by
  have hpos : 0 < fileSize := by
    have : 0 < CHUNK_SIZE := by norm_num [CHUNK_SIZE]
    omega
  have hub := fileSize_le_totalChunks_mul fileSize
  have hlb := pred_totalChunks_mul_lt fileSize hpos
  have htc := totalChunks_pos fileSize hpos
  refine ⟨rfl, ?_, ?_, ?_, ?_⟩
  · -- the sends of a full-success run
    have hrun := start_fresh_advance fileSize (totalChunks fileSize) u kk e env
      hinit hu hkk (fun j _ => hok j) (Nat.le_refl _)
    have hA : afterOk fileSize env u kk e (totalChunks fileSize) =
        ⟨⟨some u, some kk, okParts e 0 (totalChunks fileSize),
          sumChunkLen fileSize 0 (totalChunks fileSize), totalChunks fileSize,
          false, false, true⟩,
         okOuts fileSize 0 0 (totalChunks fileSize), true⟩ := by
      simp only [afterOk, Nat.sub_self]
      simp [chunkLoop]
    rw [hA] at hrun
    rw [hrun]
    rw [sentChunks_cons_status, sentChunks_append, sentChunks_completionTail,
      List.append_nil]
    rw [sentChunks_okOuts, List.range_eq_range']
  · intro i hi
    have h2 : (i + 1) * CHUNK_SIZE ≤ (totalChunks fileSize - 1) * CHUNK_SIZE :=
      Nat.mul_le_mul_right _ (by omega)
    simp only [chunkLen, CHUNK_SIZE] at *
    omega
  · simp only [chunkLen, CHUNK_SIZE] at *
    have h3 : (totalChunks fileSize - 1) * (10 * 1024 * 1024) + 10 * 1024 * 1024 =
        totalChunks fileSize * (10 * 1024 * 1024) := by
      obtain ⟨t, ht⟩ := Nat.exists_eq_add_of_le htc
      rw [ht]
      omega
    omega
  · rw [chunkLen_sum]
    simp only [CHUNK_SIZE] at *
    omega

theorem chunk_partition_correct_wit :
    CHUNK_SIZE < CHUNK_SIZE + 1 ∧
    ((List.range (totalChunks (CHUNK_SIZE + 1))).map (chunkLen (CHUNK_SIZE + 1))).sum =
      CHUNK_SIZE + 1 :=
  ⟨Nat.lt_succ_self _,
   (chunk_partition_correct (CHUNK_SIZE + 1) envAllOk "u" "k" (fun _ => "e")
      (Nat.lt_succ_self _) rfl (by decide) (by decide) (fun _ => rfl)).2.2.2.2⟩

/-- C3: when chunks 1..k succeeded and the transfer of chunk k+1 failed with a
genuine transport error (not a pause/cancel abort), the run stops in the
Failed (`error`) state with no automatic retry: the cursor stays at k, the
committed partNumbers are exactly 1..k, the run's part PUTs are exactly
partNumbers 1..k+1 (the failed chunk was attempted once and nothing after),
and the last notification is the `error` status; a subsequent `resume()` with
any event oracle re-enters the loop at the same cursor, so its part PUTs start
at partNumber k+1 and chunks 1..k are never re-sent. -/
theorem failed_chunk_resume_cursor (fileSize k : Nat) (u kk : String) (e : Nat → String)
    (env1 env2 : Env)
    (hinit : env1.initEv = InitEv.ok u kk) (hu : u ≠ "") (hkk : kk ≠ "")
    (hok : ∀ j, j < k → env1.chunkEv j = ChunkEv.ok (e j))
    (herr : env1.chunkEv k = ChunkEv.netErr)
    (hk : k < totalChunks fileSize) :
    (LargeFileUpload.start fileSize env1 freshSess).1.currentChunkIndex = k ∧
    (LargeFileUpload.start fileSize env1 freshSess).1.isRunning = false ∧
    partNumbers (LargeFileUpload.start fileSize env1 freshSess).1.parts =
      List.range' 1 k ∧
    (LargeFileUpload.start fileSize env1 freshSess).2.getLast? =
      some (Output.status Status.error (some "Upload chunk failed. Click Retry.")) ∧
    sentParts (LargeFileUpload.start fileSize env1 freshSess).2 =
      List.range' 1 (k + 1) ∧
    (∃ n, sentParts (LargeFileUpload.resume fileSize env2
        (LargeFileUpload.start fileSize env1 freshSess).1).2 =
      List.range' (k + 1) (n + 1)) := by
  have hrun := start_fresh_advance fileSize k u kk e env1 hinit hu hkk hok
    (Nat.le_of_lt hk)
  rw [afterOk_netErr fileSize k env1 u kk e hu hkk herr hk] at hrun
  have hfin : finalState env1
      ⟨⟨some u, some kk, okParts e 0 k, sumChunkLen fileSize 0 k, k, false, false, false⟩,
       okOuts fileSize 0 0 k ++
         [Output.chunkSend (k + 1) (k * CHUNK_SIZE)
            (min (k * CHUNK_SIZE + CHUNK_SIZE) fileSize),
          Output.status Status.error (some "Upload chunk failed. Click Retry.")],
       false⟩ =
      ⟨some u, some kk, okParts e 0 k, sumChunkLen fileSize 0 k, k, false, false, false⟩ :=
    rfl
  have hct : completionTail env1
      ⟨⟨some u, some kk, okParts e 0 k, sumChunkLen fileSize 0 k, k, false, false, false⟩,
       okOuts fileSize 0 0 k ++
         [Output.chunkSend (k + 1) (k * CHUNK_SIZE)
            (min (k * CHUNK_SIZE + CHUNK_SIZE) fileSize),
          Output.status Status.error (some "Upload chunk failed. Click Retry.")],
       false⟩ = [] := rfl
  rw [hfin, hct] at hrun
  refine ⟨by rw [hrun], by rw [hrun], ?_, ?_, ?_, ?_⟩
  · rw [hrun]
    simpa using okParts_partNumbers e k 0
  · rw [hrun]
    have hshape : (Output.status Status.uploading none ::
        ((okOuts fileSize 0 0 k ++
          [Output.chunkSend (k + 1) (k * CHUNK_SIZE)
             (min (k * CHUNK_SIZE + CHUNK_SIZE) fileSize),
           Output.status Status.error (some "Upload chunk failed. Click Retry.")]) ++ []) :
          List Output) =
        (Output.status Status.uploading none ::
          (okOuts fileSize 0 0 k ++
            [Output.chunkSend (k + 1) (k * CHUNK_SIZE)
               (min (k * CHUNK_SIZE + CHUNK_SIZE) fileSize)])) ++
          [Output.status Status.error (some "Upload chunk failed. Click Retry.")] := by
      simp
    rw [hshape, List.getLast?_concat]
  · rw [hrun]
    rw [List.append_nil, sentParts_cons_status, sentParts_append, sentParts_okOuts]
    have : sentParts [Output.chunkSend (k + 1) (k * CHUNK_SIZE)
        (min (k * CHUNK_SIZE + CHUNK_SIZE) fileSize),
        Output.status Status.error (some "Upload chunk failed. Click Retry.")] =
        [k + 1] := rfl
    rw [this, List.range'_concat]
    simp [Nat.add_comm]
  · rw [hrun]
    have hres : LargeFileUpload.resume fileSize env2
        ⟨some u, some kk, okParts e 0 k, sumChunkLen fileSize 0 k, k, false, false, false⟩ =
        runUploadLoop fileSize env2
          ⟨some u, some kk, okParts e 0 k, sumChunkLen fileSize 0 k, k, false, false, false⟩ :=
      rfl
    rw [hres, sentParts_runUploadLoop fileSize env2 _ (otruthy_some_true hu)]
    obtain ⟨t2, ht2⟩ : ∃ t2, totalChunks fileSize = t2 + 1 :=
      ⟨totalChunks fileSize - 1, by omega⟩
    rw [ht2]
    exact sentParts_chunkLoop_pos fileSize env2.chunkEv t2
      ⟨some u, some kk, okParts e 0 k, sumChunkLen fileSize 0 k, k, false, false, true⟩
      rfl rfl (otruthy_some_true hu) (otruthy_some_true hkk) hk

theorem failed_chunk_resume_cursor_wit :
    1 < totalChunks (CHUNK_SIZE + 1) ∧
    (LargeFileUpload.start (CHUNK_SIZE + 1) envOkThenNetErr freshSess).1.currentChunkIndex =
      1 :=
  ⟨by decide,
   (failed_chunk_resume_cursor (CHUNK_SIZE + 1) 1 "u" "k" (fun _ => "e")
      envOkThenNetErr envAllOk rfl (by decide) (by decide)
      (fun j hj => by
        have h0 : j = 0 := Nat.lt_one_iff.mp hj
        subst h0
        rfl)
      rfl (by decide)).1⟩

/-- C4: a `pause()` that aborts the in-flight transfer of chunk m+1 leaves
`uploadedBytes`, `committedParts` and the chunk cursor untouched for that
chunk: after chunks 1..m succeeded and the transfer of chunk m+1 was aborted
by pause, the bytes are exactly those of chunks 1..m, the committed
partNumbers are exactly 1..m (partNumber m+1 is not recorded), the cursor is
m, the session is Paused with `paused` as the last notification, and a
subsequent `resume()` with any event oracle re-attempts exactly chunk m+1
first. -/
theorem pause_midchunk_frame (fileSize m : Nat) (u kk : String) (e : Nat → String)
    (env1 env2 : Env)
    (hinit : env1.initEv = InitEv.ok u kk) (hu : u ≠ "") (hkk : kk ≠ "")
    (hok : ∀ j, j < m → env1.chunkEv j = ChunkEv.ok (e j))
    (hstop : env1.chunkEv m = ChunkEv.pauseAbort)
    (hm : m < totalChunks fileSize) :
    (LargeFileUpload.start fileSize env1 freshSess).1.currentChunkIndex = m ∧
    (LargeFileUpload.start fileSize env1 freshSess).1.uploadedBytes =
      sumChunkLen fileSize 0 m ∧
    partNumbers (LargeFileUpload.start fileSize env1 freshSess).1.parts =
      List.range' 1 m ∧
    (m + 1) ∉ partNumbers (LargeFileUpload.start fileSize env1 freshSess).1.parts ∧
    (LargeFileUpload.start fileSize env1 freshSess).1.isPaused = true ∧
    (LargeFileUpload.start fileSize env1 freshSess).2.getLast? =
      some (Output.status Status.paused none) ∧
    (∃ n, sentParts (LargeFileUpload.resume fileSize env2
        (LargeFileUpload.start fileSize env1 freshSess).1).2 =
      List.range' (m + 1) (n + 1)) := by
  have hrun := start_fresh_advance fileSize m u kk e env1 hinit hu hkk hok
    (Nat.le_of_lt hm)
  rw [afterOk_pauseAbort fileSize m env1 u kk e hu hkk hstop hm] at hrun
  have hfin : finalState env1
      ⟨⟨some u, some kk, okParts e 0 m, sumChunkLen fileSize 0 m, m, true, false, false⟩,
       okOuts fileSize 0 0 m ++
         [Output.chunkSend (m + 1) (m * CHUNK_SIZE)
            (min (m * CHUNK_SIZE + CHUNK_SIZE) fileSize),
          Output.status Status.paused none],
       false⟩ =
      ⟨some u, some kk, okParts e 0 m, sumChunkLen fileSize 0 m, m, true, false, false⟩ :=
    rfl
  have hct : completionTail env1
      ⟨⟨some u, some kk, okParts e 0 m, sumChunkLen fileSize 0 m, m, true, false, false⟩,
       okOuts fileSize 0 0 m ++
         [Output.chunkSend (m + 1) (m * CHUNK_SIZE)
            (min (m * CHUNK_SIZE + CHUNK_SIZE) fileSize),
          Output.status Status.paused none],
       false⟩ = [] := rfl
  rw [hfin, hct] at hrun
  have hparts : partNumbers (LargeFileUpload.start fileSize env1 freshSess).1.parts =
      List.range' 1 m := by
    rw [hrun]
    simpa using okParts_partNumbers e m 0
  refine ⟨by rw [hrun], by rw [hrun], hparts, ?_, by rw [hrun], ?_, ?_⟩
  · intro hmem
    rw [hparts, List.mem_range'_1] at hmem
    omega
  · rw [hrun]
    have hshape : (Output.status Status.uploading none ::
        ((okOuts fileSize 0 0 m ++
          [Output.chunkSend (m + 1) (m * CHUNK_SIZE)
             (min (m * CHUNK_SIZE + CHUNK_SIZE) fileSize),
           Output.status Status.paused none]) ++ []) : List Output) =
        (Output.status Status.uploading none ::
          (okOuts fileSize 0 0 m ++
            [Output.chunkSend (m + 1) (m * CHUNK_SIZE)
               (min (m * CHUNK_SIZE + CHUNK_SIZE) fileSize)])) ++
          [Output.status Status.paused none] := by
      simp
    rw [hshape, List.getLast?_concat]
  · rw [hrun]
    have hres : LargeFileUpload.resume fileSize env2
        ⟨some u, some kk, okParts e 0 m, sumChunkLen fileSize 0 m, m, true, false, false⟩ =
        runUploadLoop fileSize env2
          ⟨some u, some kk, okParts e 0 m, sumChunkLen fileSize 0 m, m, false, false, false⟩ :=
      rfl
    rw [hres, sentParts_runUploadLoop fileSize env2 _ (otruthy_some_true hu)]
    obtain ⟨t2, ht2⟩ : ∃ t2, totalChunks fileSize = t2 + 1 :=
      ⟨totalChunks fileSize - 1, by omega⟩
    rw [ht2]
    exact sentParts_chunkLoop_pos fileSize env2.chunkEv t2
      ⟨some u, some kk, okParts e 0 m, sumChunkLen fileSize 0 m, m, false, false, true⟩
      rfl rfl (otruthy_some_true hu) (otruthy_some_true hkk) hm

theorem pause_midchunk_frame_wit :
    1 < totalChunks (CHUNK_SIZE + 1) ∧
    (LargeFileUpload.start (CHUNK_SIZE + 1) envOkThenPause freshSess).1.isPaused = true :=
  ⟨by decide,
   (pause_midchunk_frame (CHUNK_SIZE + 1) 1 "u" "k" (fun _ => "e")
      envOkThenPause envAllOk rfl (by decide) (by decide)
      (fun j hj => by
        have h0 : j = 0 := Nat.lt_one_iff.mp hj
        subst h0
        rfl)
      rfl (by decide)).2.2.2.2.1⟩

/-- C5 counterexample: for the 2-chunk file of size CHUNK_SIZE + 1, a fully
successful run reports `complete`; a subsequent `start()` on the completed
session skips the chunks but re-invokes completion and reports `complete` a
second time, and `cancel()` followed by `start()` re-enters the chunk loop,
re-sending partNumber 1 — so, as stated over every subsequent command
sequence, completion is neither reported exactly once nor does the session
never re-enter the chunk loop. -/
theorem completion_not_terminal_cex :
    Output.status Status.complete none ∈
      (LargeFileUpload.start (CHUNK_SIZE + 1) envAllOk freshSess).2 ∧
    Output.status Status.complete none ∈
      (LargeFileUpload.start (CHUNK_SIZE + 1) envAllOk
        (LargeFileUpload.start (CHUNK_SIZE + 1) envAllOk freshSess).1).2 ∧
    Output.chunkSend 1 0 CHUNK_SIZE ∈
      (runCmds (CHUNK_SIZE + 1) [Cmd.cancel true, Cmd.start envAllOk]
        (LargeFileUpload.start (CHUNK_SIZE + 1) envAllOk freshSess).1).2 := by
  decide

/-- C5 (amended): once the chunk loop has exhausted all chunks — the cursor
reached `totalChunks`, as after a successful `completeMultipart` — no
subsequent sequence of start/pause/resume commands (no cancel) ever re-enters
the chunk loop body: no part PUT is emitted again and the cursor stays at
`totalChunks`.  A subsequent `start()`/`resume()` does, however, re-invoke
`completeMultipart` directly and may report `complete` again, and `cancel()`
followed by `start()` resets the session and re-runs the loop from scratch,
as the counterexample shows. -/
theorem completion_no_chunk_resend (fileSize : Nat) (cmds : List Cmd)
    (s : LargeFileUpload)
    (hidx : totalChunks fileSize ≤ s.currentChunkIndex)
    (hc : s.isCancelled = false)
    (hnc : ∀ c ∈ cmds, ∀ b, c ≠ Cmd.cancel b) :
    sentParts (runCmds fileSize cmds s).2 = [] ∧
    totalChunks fileSize ≤ (runCmds fileSize cmds s).1.currentChunkIndex ∧
    (runCmds fileSize cmds s).1.isCancelled = false := by
  induction cmds generalizing s with
  | nil => exact ⟨rfl, hidx, hc⟩
  | cons c cs ih =>
    have step : sentParts (runCmd fileSize c s).2 = [] ∧
        totalChunks fileSize ≤ (runCmd fileSize c s).1.currentChunkIndex ∧
        (runCmd fileSize c s).1.isCancelled = false := by
      cases c with
      | start env =>
        simp only [runCmd, LargeFileUpload.start, hc, Bool.false_eq_true, if_false]
        cases hr : s.isRunning with
        | true => exact ⟨rfl, hidx, hc⟩
        | false =>
          obtain ⟨h1, h2, h3⟩ := runUploadLoop_no_send fileSize env
            { s with isPaused := false, isCancelled := false } hidx
          exact ⟨h1, le_trans hidx (le_of_eq h2.symm), h3⟩
      | pause => exact ⟨rfl, hidx, hc⟩
      | resume env =>
        simp only [runCmd, LargeFileUpload.resume, hc, Bool.false_eq_true, if_false]
        cases hcond : (!s.isPaused && s.isRunning) with
        | true => exact ⟨rfl, hidx, hc⟩
        | false =>
          obtain ⟨h1, h2, h3⟩ := runUploadLoop_no_send fileSize env
            { s with isPaused := false, isCancelled := false } hidx
          exact ⟨h1, le_trans hidx (le_of_eq h2.symm), h3⟩
      | cancel b => exact absurd rfl (hnc (Cmd.cancel b) (List.mem_cons_self _ _) b)
    obtain ⟨h1, h2, h3⟩ := step
    obtain ⟨h4, h5, h6⟩ := ih (runCmd fileSize c s).1 h2 h3
      (fun c' hc' b => hnc c' (List.mem_cons_of_mem _ hc') b)
    refine ⟨?_, h5, h6⟩
    show sentParts ((runCmd fileSize c s).2 ++
      (runCmds fileSize cs (runCmd fileSize c s).1).2) = []
    rw [sentParts_append, h1, h4]
    rfl

theorem completion_no_chunk_resend_wit :
    totalChunks 0 ≤ freshSess.currentChunkIndex ∧
    sentParts (runCmds 0 [Cmd.start envAllOk] freshSess).2 = [] :=
  ⟨by decide,
   (completion_no_chunk_resend 0 [Cmd.start envAllOk] freshSess (by decide) rfl
      (by
        intro c hcm b
        simp only [List.mem_singleton] at hcm
        subst hcm
        exact fun h => Cmd.noConfusion h)).1⟩
